import Mathlib

/-!
Verification development for the Google Calendar MCP server repository.

The development shallowly embeds the natural-language datetime parser
(src/utils/natural-datetime-parser.ts), the duplicate-blocking step of the
create-event handler (CreateEventHandler.runTool), the detection-option
defaults it builds, and the credential-stripping dispatcher
(GoogleCalendarMcpServer.executeWithHandler).

Strings are modelled as `List Char`.  Dates are modelled at day granularity
as integers counting days since 1970-01-01 (the JS Date epoch); the code
under verification only ever reads the calendar date and the weekday of its
Date values and sets the time of day explicitly, so this is faithful.
JS `getDay` returns 0 for Sunday and 1970-01-01 was a Thursday, hence
`jsGetDay z = (z + 4) mod 7`.  Similarity scores and schema numbers are
modelled as rationals.
-/

/-- Converts a Lean string literal to the `List Char` representation used
throughout this development. -/
def toL (s : String) : List Char := s.toList

/-- Whitespace test used by the embeddings of JS `trim` and the regex
class `\s` (the common ASCII whitespace characters; exotic Unicode space
code points never occur in the strings this development evaluates). -/
def isSpaceC (c : Char) : Bool :=
  c == ' ' || c == '\t' || c == '\n' || c == '\r' ||
  c == Char.ofNat 11 || c == Char.ofNat 12

/-- Decimal digit test, the embedding of the regex class `\d`. -/
def isDig (c : Char) : Bool := '0' ≤ c && c ≤ '9'

/-- ASCII lowering, the embedding of JS `toLowerCase` on the character
range relevant here (no character outside A-Z lowers to any letter used by
the recognized patterns, so the branch conditions are unaffected by the
restriction to ASCII). -/
def jsToLower (c : Char) : Char :=
  if 'A' ≤ c && c ≤ 'Z' then Char.ofNat (c.toNat + 32) else c

/-- Embedding of JS `String.prototype.trim`. -/
def trimL (l : List Char) : List Char :=
  ((l.dropWhile isSpaceC).reverse.dropWhile isSpaceC).reverse

/-- Lowercase-then-trim preprocessing done at the top of
`parseNaturalDateTime` (`input.toLowerCase().trim()`). -/
def lowTrim (l : List Char) : List Char := trimL (l.map jsToLower)

/-- Prefix test on character lists (regex literal matching at a position). -/
def startsWithL : List Char → List Char → Bool
  | _, [] => true
  | [], _ :: _ => false
  | c :: cs, d :: ds => c == d && startsWithL cs ds

/-- Substring test on character lists, the embedding of JS
`String.prototype.includes`. -/
def containsL : List Char → List Char → Bool
  | [], pat => pat.isEmpty
  | l@(_ :: cs), pat => startsWithL l pat || containsL cs pat

/-- Numeric value of a digit run, the embedding of `parseInt` on a string
of decimal digits. -/
def digitsVal (l : List Char) : Nat :=
  l.foldl (fun a c => 10 * a + (c.toNat - 48)) 0

/-- Embedding of the regex piece `\s+` at a position: requires at least one
whitespace character, consumes the maximal run, returns the rest. -/
def spaces1 : List Char → Option (List Char)
  | [] => none
  | c :: rest => if isSpaceC c then some (rest.dropWhile isSpaceC) else none

/-- Embedding of the core `(\d+)\s+day` of the relative-days regex
`(?:in\s+)?(\d+)\s+days?` at a fixed position: a nonempty greedy digit
run, at least one space, then the literal `day`.  Returns the captured
number. -/
def relCore (l : List Char) : Option Nat :=
  let ds := l.takeWhile isDig
  if ds.isEmpty then none
  else
    match spaces1 (l.dropWhile isDig) with
    | none => none
    | some rest2 =>
      if startsWithL rest2 (toL "day") then some (digitsVal ds) else none

/-- The with-prefix attempt of the optional `(?:in\s+)?`: the literal
`in`, at least one space, then the core. -/
def relInPrefix (l : List Char) : Option Nat :=
  if startsWithL l (toL "in") then
    match spaces1 (l.drop 2) with
    | some rest2 => relCore rest2
    | none => none
  else none

/-- One attempt of the relative-days regex at a position: the optional
greedy `(?:in\s+)?` is tried first, then the bare core, as the regex
engine would. -/
def relTryAt (l : List Char) : Option Nat :=
  (relInPrefix l).orElse (fun _ => relCore l)

/-- Leftmost match of `(?:in\s+)?(\d+)\s+days?`, the embedding of
`normalizedInput.match(...)` returning the captured day count. -/
def relativeDayMatch : List Char → Option Nat
  | [] => none
  | l@(_ :: cs) => (relTryAt l).orElse (fun _ => relativeDayMatch cs)

/-- Word-character test of the regex `\b` boundary ([A-Za-z0-9_]). -/
def isWordChar (c : Char) : Bool :=
  isDig c || ('a' ≤ c && c ≤ 'z') || ('A' ≤ c && c ≤ 'Z') || c == '_'

/-- The `\b` boundary after a matched name: end of input or a non-word
character. -/
def boundaryAfter : List Char → Bool
  | [] => true
  | c :: _ => !isWordChar c

/-- One weekday-name alternative at a position: literal prefix plus the
trailing word boundary. -/
def tryName (l : List Char) (name : List Char) : Bool :=
  startsWithL l name && boundaryAfter (l.drop name.length)

/-- One attempt of `\b(sunday|monday|...)\b` at a position, alternatives
in the order they appear in the `dayNames` array; `prevW` records whether
the preceding character was a word character (the leading boundary). -/
def dayTryAt (prevW : Bool) (l : List Char) : Option Nat :=
  if prevW then none
  else if tryName l (toL "sunday") then some 0
  else if tryName l (toL "monday") then some 1
  else if tryName l (toL "tuesday") then some 2
  else if tryName l (toL "wednesday") then some 3
  else if tryName l (toL "thursday") then some 4
  else if tryName l (toL "friday") then some 5
  else if tryName l (toL "saturday") then some 6
  else none

/-- Leftmost-match scan for the weekday-name regex. -/
def dayScan : Bool → List Char → Option Nat
  | _, [] => none
  | prevW, l@(c :: cs) => (dayTryAt prevW l).orElse (fun _ => dayScan (isWordChar c) cs)

/-- Embedding of `normalizedInput.match(new RegExp(...dayNames...))`,
returning `dayNames.indexOf` of the captured name (0 = sunday). -/
def dayNameMatch (l : List Char) : Option Nat := dayScan false l

/-- Meridiem marker captured by the time-of-day regex; the code treats the
captures `pm` and `p.m.` alike (and `am`, `a.m.` alike), which this type
records directly. -/
inductive Meridiem where
  | am : Meridiem
  | pm : Meridiem
deriving DecidableEq

/-- The meridiem alternation `(am|pm|a\.m\.|p\.m\.)?` tried at a position,
alternatives in source order. -/
def matchMeridiem (l : List Char) : Option Meridiem :=
  if startsWithL l (toL "am") then some .am
  else if startsWithL l (toL "pm") then some .pm
  else if startsWithL l (toL "a.m.") then some .am
  else if startsWithL l (toL "p.m.") then some .pm
  else none

/-- One attempt of the time regex
`(\d{1,2})(?::(\d{2}))?\s*(am|pm|a\.m\.|p\.m\.)?` at a position: succeeds
exactly when the position starts with a digit (everything after the hour
is optional).  Returns the parsed hour, the minute capture when present,
and the meridiem capture when present. -/
def timeMatchAt : List Char → Option (Nat × Option Nat × Option Meridiem)
  | [] => none
  | c :: rest =>
    if isDig c then
      let hr : Nat × List Char :=
        match rest with
        | c2 :: rest2 =>
          if isDig c2 then ((c.toNat - 48) * 10 + (c2.toNat - 48), rest2)
          else (c.toNat - 48, rest)
        | [] => (c.toNat - 48, [])
      let mr : Option Nat × List Char :=
        match hr.2 with
        | ':' :: d1 :: d2 :: r =>
          if isDig d1 && isDig d2 then
            (some ((d1.toNat - 48) * 10 + (d2.toNat - 48)), r)
          else (none, hr.2)
        | _ => (none, hr.2)
      some (hr.1, mr.1, matchMeridiem (mr.2.dropWhile isSpaceC))
    else none

/-- Leftmost match of the time regex, the embedding of
`input.match(timePattern)` in `parseTimeForDate`. -/
def timeMatch : List Char → Option (Nat × Option Nat × Option Meridiem)
  | [] => none
  | l@(_ :: cs) => (timeMatchAt l).orElse (fun _ => timeMatch cs)

/-- The AM/PM adjustment of `parseTimeForDate`: a pm marker adds 12 except
to hour 12; an am marker zeroes hour 12 only; no marker leaves the hour
unchanged. -/
def adjustHour (h : Nat) (mer : Option Meridiem) : Nat :=
  match mer with
  | some .pm => if h ≠ 12 then h + 12 else h
  | some .am => if h = 12 then 0 else h
  | none => h

/-- Decimal digit character of `k mod 10`. -/
def digitChar (k : Nat) : Char := Char.ofNat (48 + k % 10)

/-- Accumulator form of decimal printing.  The first argument is fuel
making the recursion structural; it is always supplied as the number
itself, which bounds the digit count, so the fuel never runs out before
the number is below 10. -/
def natDigitsAux : Nat → Nat → List Char → List Char
  | 0, n, acc => digitChar n :: acc
  | fuel + 1, n, acc =>
    if n < 10 then digitChar n :: acc
    else natDigitsAux fuel (n / 10) (digitChar (n % 10) :: acc)

/-- Decimal printing of a natural number, as JS `String(n)` produces for a
nonnegative integer. -/
def natDigits (n : Nat) : List Char := natDigitsAux n n []

/-- Decimal printing of an integer, as JS number-to-string conversion
produces for an integer value. -/
def intDigits (z : Int) : List Char :=
  if z < 0 then '-' :: natDigits z.natAbs else natDigits z.natAbs

/-- Embedding of `String(n).padStart(2, "0")`. -/
def pad2 (n : Nat) : List Char :=
  if n < 10 then '0' :: natDigits n else natDigits n

/-- Civil date (year, month, day) of a day count since 1970-01-01,
following the standard era-based conversion the JS Date object implements.
Only the output FORMAT matters to the theorems below; concrete witnesses
evaluate it at concrete modern dates. -/
def civilFromDays (z0 : Int) : Int × Nat × Nat :=
  let z : Int := z0 + 719468
  let era : Int := z.ediv 146097
  let doe : Nat := (z.emod 146097).toNat
  let yoe : Nat := (doe - doe / 1460 + doe / 36524 - doe / 146096) / 365
  let y : Int := era * 400 + yoe
  let doy : Nat := doe - (365 * yoe + yoe / 4 - yoe / 100)
  let mp : Nat := (5 * doy + 2) / 153
  let d : Nat := doy - (153 * mp + 2) / 5 + 1
  let m : Nat := if mp < 10 then mp + 3 else mp - 9
  (if m ≤ 2 then y + 1 else y, m, d)

/-- The `${year}-${month}-${day}` formatting of `parseTimeForDate` (year
unpadded, month and day padded to two digits). -/
def fmtDate (z : Int) : List Char :=
  let c := civilFromDays z
  intDigits c.1 ++ '-' :: (pad2 c.2.1 ++ '-' :: pad2 c.2.2)

/-- Result type of the parser, `{ datetime, isAllDay }` in the source. -/
structure ParsedDateTime where
  datetime : List Char
  isAllDay : Bool
deriving DecidableEq

/-- The time-found branch of `parseTimeForDate`: minutes default to 0 when
the capture is absent, the AM/PM adjustment is applied, `setHours` carries
excess hours and minutes over into the date, and the result is formatted
as `YYYY-MM-DDTHH:mm:00` with all-day false. -/
def buildTime (d : Int) (h : Nat) (m : Option Nat) (mer : Option Meridiem) : ParsedDateTime :=
  let minutes := m.getD 0
  let total := adjustHour h mer * 60 + minutes
  let d2 := d + (total / 1440 : Nat)
  ⟨fmtDate d2 ++ 'T' :: (pad2 (total % 1440 / 60) ++ ':' :: (pad2 (total % 60) ++ ':' :: toL "00")),
   false⟩

/-- Embedding of `parseTimeForDate`: extract a time of day from the input
for the given anchor date, or produce the bare all-day date when the time
regex finds no digit. -/
def parseTimeForDate (s : List Char) (d : Int) : ParsedDateTime :=
  match timeMatch s with
  | some (h, m, mer) => buildTime d h m mer
  | none => ⟨fmtDate d, true⟩

/-- JS `Date.prototype.getDay` on the day-count model: 0 = Sunday, and day
0 (1970-01-01) was a Thursday. -/
def jsGetDay (z : Int) : Int := (z + 4) % 7

/-- Embedding of `getNextWeekdayDate`: days until the target weekday
modulo 7, mapping a same-day hit to a full week ahead. -/
def getNextWeekdayDate (cur : Int) (targetDay : Nat) : Int :=
  let daysUntilTarget := ((targetDay : Int) - jsGetDay cur + 7) % 7
  if daysUntilTarget = 0 then cur + 7 else cur + daysUntilTarget

/-- Embedding of `parseNaturalDateTime`.  `cur` is the current date in the
requested timezone (the code computes it from the clock and the IANA zone;
the claims are all evaluated at a fixed current instant, so the date enters
as a parameter).  Branch order follows the source: today, tomorrow,
yesterday, relative days, weekday names, then ISO/passthrough. -/
def parseNaturalDateTime (cur : Int) (input : List Char) : ParsedDateTime :=
  let s := lowTrim input
  if containsL s (toL "today") then parseTimeForDate s cur
  else if containsL s (toL "tomorrow") then parseTimeForDate s (cur + 1)
  else if containsL s (toL "yesterday") then parseTimeForDate s (cur - 1)
  else
    match relativeDayMatch s with
    | some n => parseTimeForDate s (cur + n)
    | none =>
      match dayNameMatch s with
      | some d => parseTimeForDate s (getNextWeekdayDate cur d)
      | none => ⟨input, !(input.contains 'T')⟩

/-! ## Conflict-detection configuration and the create-event duplicate gate

The handler file imports `CONFLICT_DETECTION_CONFIG` from
`services/conflict-detection/config.js`, which is not part of the sources
at hand; its two constants are therefore modelled from the spec. -/

/-- Nested threshold record mirroring
`CONFLICT_DETECTION_CONFIG.DUPLICATE_THRESHOLDS`. -/
structure DuplicateThresholds where
  BLOCKING : ℚ

/-- Shape of the configuration constant consumed by the handler. -/
structure ConflictDetectionConfigShape where
  DEFAULT_DUPLICATE_THRESHOLD : ℚ
  DUPLICATE_THRESHOLDS : DuplicateThresholds

/-- Modelled from the spec: the configuration module
`services/conflict-detection/config.ts` is not among the sources; the spec
fixes the detection default at 0.7 and the blocking bar at 0.95 (the
create-event schema text in registry.ts likewise documents
`similarity >= 0.95` as the blocking bar and 0.7 as the default). -/
def CONFLICT_DETECTION_CONFIG : ConflictDetectionConfigShape :=
  { DEFAULT_DUPLICATE_THRESHOLD := 7/10
    DUPLICATE_THRESHOLDS := { BLOCKING := 95/100 } }

/-- Event payload of a duplicate match as the handler reads it
(`exactDuplicate.event`). -/
structure DupEvent where
  id : Option (List Char)
  title : List Char
  start : Option (List Char)
  endTime : Option (List Char)
  url : Option (List Char)
  similarity : ℚ

/-- One duplicate entry of the detection report. -/
structure DupMatch where
  event : DupEvent
  calendarId : Option (List Char)
  suggestion : List Char

/-- One temporal-conflict entry of the detection report; the blocking step
of `runTool` never reads its fields. -/
structure ConflictMatch where
  title : List Char
  start : List Char
  endTime : List Char

/-- The report returned by `conflictDetectionService.checkConflicts`. -/
structure DetectionReport where
  conflicts : List ConflictMatch
  duplicates : List DupMatch

/-- Embedding of JS `Math.round` on the rational model: round half toward
positive infinity. -/
def roundJS (q : ℚ) : Int := ⌊q + 1/2⌋

/-- The duplicate error text thrown by `runTool`, assembled exactly as the
source template literals concatenate it. -/
def duplicateErrorMessage (d : DupMatch) : List Char :=
  toL "Duplicate event detected (" ++
  intDigits (roundJS (d.event.similarity * 100)) ++
  toL "% similar" ++ toL "). " ++ toL "Event \"" ++ d.event.title ++
  toL "\" already exists. " ++
  toL "To create anyway, set allowDuplicates to true."

/-- The `duplicates.find(...)` step of `runTool`: first reported duplicate
whose similarity reaches the blocking threshold. -/
def findExactDuplicate (r : DetectionReport) : Option DupMatch :=
  r.duplicates.find? (fun d =>
    decide (CONFLICT_DETECTION_CONFIG.DUPLICATE_THRESHOLDS.BLOCKING ≤ d.event.similarity))

/-- Embedding of the blocking step of `CreateEventHandler.runTool` after
the detection call: either the duplicate error is thrown (`Except.error`)
or control reaches `this.createEvent`.  The boolean records whether the
calendar insert was invoked. -/
def runToolBlockStep (r : DetectionReport) (allowDuplicates : Option Bool) :
    Except (List Char) Unit × Bool :=
  match findExactDuplicate r with
  | some d =>
    if allowDuplicates ≠ some true then (Except.error (duplicateErrorMessage d), false)
    else (Except.ok (), true)
  | none => (Except.ok (), true)

/-- The create-event arguments the options object reads (other tool
arguments do not reach it). -/
structure CreateEventDetectionArgs where
  calendarId : List Char
  calendarsToCheck : Option (List (List Char))
  duplicateSimilarityThreshold : Option ℚ
  allowDuplicates : Option Bool

/-- Detection options passed to `checkConflicts`. -/
structure DetectionOptions where
  checkDuplicates : Bool
  checkConflicts : Bool
  calendarsToCheck : List (List Char)
  duplicateSimilarityThreshold : ℚ
deriving DecidableEq

/-- Embedding of the options object literal built inside `runTool`:
`calendarsToCheck || [calendarId]` falls back only on an absent value (an
empty array is truthy in JS), while `duplicateSimilarityThreshold || DEFAULT`
falls back on the absent value AND on the falsy number 0. -/
def checkConflictsOptions (a : CreateEventDetectionArgs) : DetectionOptions :=
  { checkDuplicates := true
    checkConflicts := true
    calendarsToCheck :=
      match a.calendarsToCheck with
      | none => [a.calendarId]
      | some l => l
    duplicateSimilarityThreshold :=
      match a.duplicateSimilarityThreshold with
      | none => CONFLICT_DETECTION_CONFIG.DEFAULT_DUPLICATE_THRESHOLD
      | some v =>
        if v = 0 then CONFLICT_DETECTION_CONFIG.DEFAULT_DUPLICATE_THRESHOLD else v }

/-- Acceptance predicate of the `duplicateSimilarityThreshold` input schema
in registry.ts: `z.number().min(0).max(1)`. -/
def thresholdSchemaAccepts (q : ℚ) : Prop := 0 ≤ q ∧ q ≤ 1

/-! ## The credential-stripping dispatcher `executeWithHandler`

JS values are modelled by `JsVal`; the platform builtins the dispatcher
calls (`JSON.parse`, number-to-string conversion, `Number(...)`) are taken
as parameters, so the theorems hold for every behaviour of those builtins. -/

/-- Model of a JS value as far as the dispatcher inspects one. -/
inductive JsVal where
  | undefined : JsVal
  | jsNull : JsVal
  | bool : Bool → JsVal
  | num : ℚ → JsVal
  | str : List Char → JsVal
  | obj : List (List Char × JsVal) → JsVal

/-- JS truthiness of the modelled values (NaN does not arise here). -/
def truthy : JsVal → Bool
  | .undefined => false
  | .jsNull => false
  | .bool b => b
  | .num q => decide (q ≠ 0)
  | .str s => !s.isEmpty
  | .obj _ => true

/-- Property read `v.k` on an object value; anything else (and a missing
key) yields `undefined`. -/
def getProp (v : JsVal) (k : List Char) : JsVal :=
  match v with
  | .obj fields =>
    match fields.find? (fun kv => kv.1 == k) with
    | some kv => kv.2
    | none => .undefined
  | _ => .undefined

/-- Field lookup on the raw argument object handed to the dispatcher. -/
def lookupField (args : List (List Char × JsVal)) (k : List Char) : JsVal :=
  match args.find? (fun kv => kv.1 == k) with
  | some kv => kv.2
  | none => .undefined

/-- The three credential keys destructured away from the tool arguments. -/
def tokenKeys : List (List Char) :=
  [toL "access_token", toL "refresh_token", toL "expiry_date"]

/-- The guard shared by the three token-parsing blocks:
`parsed.success && parsed.tokens && parsed.tokens.google`. -/
def googleTokensPresent (parsed : JsVal) : Bool :=
  truthy (getProp parsed (toL "success")) &&
  truthy (getProp parsed (toL "tokens")) &&
  truthy (getProp (getProp parsed (toL "tokens")) (toL "google"))

/-- One token-parameter parsing block: when the value is a string starting
with an opening brace it is fed to `JSON.parse` (`none` models a parse
throw, which aborts the try block); on the expected success shape the
value is replaced by the corresponding field of `parsed.tokens.google`,
otherwise it is kept. -/
def parseTokenParam (jsonParse : List Char → Option JsVal) (v : JsVal)
    (field : List Char) : Option JsVal :=
  match v with
  | .str s =>
    if s.head? == some (Char.ofNat 123) then
      match jsonParse s with
      | none => none
      | some parsed =>
        if googleTokensPresent parsed then
          some (getProp (getProp (getProp parsed (toL "tokens")) (toL "google")) field)
        else some v
    else some v
  | _ => some v

/-- The expiry-date parsing block: like `parseTokenParam` but reading
`parsed.tokens.google.expires_at?.toString()` — the optional chain yields
`undefined` on a missing value and otherwise stringifies via the builtin
`jsToString`. -/
def parseExpiryParam (jsonParse : List Char → Option JsVal)
    (jsToString : JsVal → List Char) (v : JsVal) : Option JsVal :=
  match v with
  | .str s =>
    if s.head? == some (Char.ofNat 123) then
      match jsonParse s with
      | none => none
      | some parsed =>
        if googleTokensPresent parsed then
          some (match getProp (getProp (getProp parsed (toL "tokens")) (toL "google"))
                        (toL "expires_at") with
                | .undefined => .undefined
                | .jsNull => .undefined
                | w => .str (jsToString w))
        else some v
    else some v
  | _ => some v

/-- The credentials set on the OAuth2 client built from the request
parameters. -/
structure ClientCredentials where
  access_token : JsVal
  refresh_token : JsVal
  expiry_date : Option ℚ

/-- What reaches `handler.runTool`: the destructured remainder of the
arguments and the freshly constructed authenticated client. -/
structure HandlerInvocation where
  toolArgs : List (List Char × JsVal)
  client : ClientCredentials

/-- Embedding of `GoogleCalendarMcpServer.executeWithHandler`: destructure
the three credential fields away from the arguments, run the token-parsing
try block (a JSON parse throw stops the block but keeps earlier
reassignments), reject when either required token is falsy, otherwise
build the client and invoke the handler on the remaining arguments. -/
def executeWithHandler (jsonParse : List Char → Option JsVal)
    (jsToString : JsVal → List Char) (jsNumber : JsVal → ℚ)
    (args : List (List Char × JsVal)) :
    Except (List Char) HandlerInvocation :=
  let access0 := lookupField args (toL "access_token")
  let refresh0 := lookupField args (toL "refresh_token")
  let expiry0 := lookupField args (toL "expiry_date")
  let toolArgs := args.filter (fun kv => !(tokenKeys.contains kv.1))
  let tokens :=
    match parseTokenParam jsonParse access0 (toL "access_token") with
    | none => (access0, refresh0, expiry0)
    | some a1 =>
      match parseTokenParam jsonParse refresh0 (toL "refresh_token") with
      | none => (a1, refresh0, expiry0)
      | some r1 =>
        match parseExpiryParam jsonParse jsToString expiry0 with
        | none => (a1, r1, expiry0)
        | some e1 => (a1, r1, e1)
  if !truthy tokens.1 || !truthy tokens.2.1 then
    Except.error (toL "[GOOGLE_AUTH_ERROR] Authentication required. Please provide access_token and refresh_token as parameters.")
  else
    Except.ok
      { toolArgs := toolArgs
        client :=
          { access_token := tokens.1
            refresh_token := tokens.2.1
            expiry_date :=
              if truthy tokens.2.2 then some (jsNumber tokens.2.2) else none } }
/-! ## Character-class lemmas for the canonical output format -/

/-- The characters a bare canonical date may contain. -/
def dateOnlyChars : List Char :=
  ['0', '1', '2', '3', '4', '5', '6', '7', '8', '9', '-']

/-- The characters a canonical date or datetime value may contain. -/
def dateChars : List Char :=
  ['0', '1', '2', '3', '4', '5', '6', '7', '8', '9', '-', 'T', ':']

/-- The same class after ASCII lowering. -/
def lowDateChars : List Char :=
  ['0', '1', '2', '3', '4', '5', '6', '7', '8', '9', '-', 't', ':']

theorem digitChar_mem (k : Nat) : digitChar k ∈ dateOnlyChars := by
  unfold digitChar
  have h : k % 10 < 10 := Nat.mod_lt _ (by omega)
  revert h
  generalize k % 10 = j
  intro h
  interval_cases j <;> decide

theorem natDigitsAux_subset (fuel n : Nat) (acc : List Char)
    (hacc : ∀ c ∈ acc, c ∈ dateOnlyChars) :
    ∀ c ∈ natDigitsAux fuel n acc, c ∈ dateOnlyChars := by
  induction fuel generalizing n acc with
  | zero =>
    intro c hc
    rcases List.mem_cons.1 hc with rfl | hc
    · exact digitChar_mem n
    · exact hacc _ hc
  | succ fuel ih =>
    intro c hc
    unfold natDigitsAux at hc
    split at hc
    · rcases List.mem_cons.1 hc with rfl | hc
      · exact digitChar_mem n
      · exact hacc _ hc
    · exact ih (n / 10) _ (by
        intro c hc
        rcases List.mem_cons.1 hc with rfl | hc
        · exact digitChar_mem (n % 10)
        · exact hacc _ hc) _ hc

theorem natDigits_subset (n : Nat) : ∀ c ∈ natDigits n, c ∈ dateOnlyChars :=
  natDigitsAux_subset n n [] (by intro c hc; cases hc)

theorem intDigits_subset (z : Int) : ∀ c ∈ intDigits z, c ∈ dateOnlyChars := by
  unfold intDigits
  split
  · intro c hc
    rcases List.mem_cons.1 hc with rfl | hc
    · decide
    · exact natDigits_subset _ _ hc
  · exact natDigits_subset _

theorem pad2_subset (n : Nat) : ∀ c ∈ pad2 n, c ∈ dateOnlyChars := by
  unfold pad2
  split
  · intro c hc
    rcases List.mem_cons.1 hc with rfl | hc
    · decide
    · exact natDigits_subset _ _ hc
  · exact natDigits_subset _

theorem fmtDate_subset (z : Int) : ∀ c ∈ fmtDate z, c ∈ dateOnlyChars := by
  unfold fmtDate
  intro c hc
  simp only [List.mem_append, List.mem_cons] at hc
  rcases hc with h | h | h | h | h
  · exact intDigits_subset _ _ h
  · subst h; decide
  · exact pad2_subset _ _ h
  · subst h; decide
  · exact pad2_subset _ _ h

theorem mem_dateChars_of_dateOnly {c : Char} (h : c ∈ dateOnlyChars) : c ∈ dateChars := by
  fin_cases h <;> decide

/-- The bare-date output never carries the T separator. -/
theorem fmtDate_no_T (z : Int) : 'T' ∉ fmtDate z := by
  intro h
  have hm := fmtDate_subset z _ h
  revert hm
  decide

theorem buildTime_subset (d : Int) (h : Nat) (m : Option Nat) (mer : Option Meridiem) :
    ∀ c ∈ (buildTime d h m mer).datetime, c ∈ dateChars := by
  intro c hc
  simp only [buildTime, show toL "00" = ['0', '0'] from rfl, List.mem_append,
    List.mem_cons, List.not_mem_nil, or_false] at hc
  rcases hc with hx | hx | hx | hx | hx | hx | hx | hx
  · exact mem_dateChars_of_dateOnly (fmtDate_subset _ _ hx)
  · subst hx; decide
  · exact mem_dateChars_of_dateOnly (pad2_subset _ _ hx)
  · subst hx; decide
  · exact mem_dateChars_of_dateOnly (pad2_subset _ _ hx)
  · subst hx; decide
  · subst hx; decide
  · subst hx; decide

/-- The time-found output always carries the T separator. -/
theorem buildTime_has_T (d : Int) (h : Nat) (m : Option Nat) (mer : Option Meridiem) :
    'T' ∈ (buildTime d h m mer).datetime := by
  simp only [buildTime, List.mem_append, List.mem_cons]
  tauto

theorem parseTimeForDate_subset (s : List Char) (d : Int) :
    ∀ c ∈ (parseTimeForDate s d).datetime, c ∈ dateChars := by
  unfold parseTimeForDate
  split
  · exact buildTime_subset _ _ _ _
  · exact fun c hc => mem_dateChars_of_dateOnly (fmtDate_subset _ _ hc)

theorem contains_iff_memc (l : List Char) (c : Char) : l.contains c = true ↔ c ∈ l := by
  simp [List.contains, List.elem_iff]

/-- All-day is reported exactly when the produced value has no T. -/
theorem parseTimeForDate_allday (s : List Char) (d : Int) :
    (parseTimeForDate s d).isAllDay = !((parseTimeForDate s d).datetime.contains 'T') := by
  rcases htm : timeMatch s with _ | ⟨h, m, mer⟩ <;>
    simp only [parseTimeForDate, htm]
  · have hT : (fmtDate d).contains 'T' = false := by
      rcases hx : (fmtDate d).contains 'T' with _ | _
      · rfl
      · exact absurd ((contains_iff_memc _ _).1 hx) (fmtDate_no_T d)
    rw [hT]
    rfl
  · have hT : (buildTime d h m mer).datetime.contains 'T' = true :=
      (contains_iff_memc _ _).2 (buildTime_has_T d h m mer)
    rw [hT]
    simp [buildTime]

/-! ## Membership facts for the pattern matchers

A successful match of any natural-language pattern forces a character the
canonical output alphabet does not have, which is what makes re-normalized
values fall through to the passthrough branch. -/

theorem startsWithL_mem {l pat : List Char} (h : startsWithL l pat = true) :
    ∀ c ∈ pat, c ∈ l := by
  induction pat generalizing l with
  | nil => intro c hc; cases hc
  | cons d ds ih =>
    cases l with
    | nil => simp [startsWithL] at h
    | cons e es =>
      simp only [startsWithL, Bool.and_eq_true, beq_iff_eq] at h
      intro c hc
      rcases List.mem_cons.1 hc with rfl | hc
      · exact h.1 ▸ List.mem_cons_self _ _
      · exact List.mem_cons_of_mem _ (ih h.2 _ hc)

theorem containsL_mem {l pat : List Char} (h : containsL l pat = true) :
    ∀ c ∈ pat, c ∈ l := by
  induction l with
  | nil =>
    intro c hc
    cases pat with
    | nil => cases hc
    | cons d ds => simp [containsL, List.isEmpty] at h
  | cons e es ih =>
    simp only [containsL, Bool.or_eq_true] at h
    intro c hc
    rcases h with h | h
    · exact startsWithL_mem h _ hc
    · exact List.mem_cons_of_mem _ (ih h _ hc)

theorem mem_of_dropWhile {p : Char → Bool} {l : List Char} {c : Char}
    (h : c ∈ l.dropWhile p) : c ∈ l :=
  (List.dropWhile_sublist p).mem h

theorem spaces1_mem {l rest : List Char} (h : spaces1 l = some rest) :
    ∀ c ∈ rest, c ∈ l := by
  cases l with
  | nil => simp [spaces1] at h
  | cons e es =>
    simp only [spaces1] at h
    split at h
    · cases h
      intro c hc
      exact List.mem_cons_of_mem _ (mem_of_dropWhile hc)
    · cases h

theorem relCore_mem_a {l : List Char} {n : Nat} (h : relCore l = some n) : 'a' ∈ l := by
  by_cases hds : (l.takeWhile isDig).isEmpty
  · simp [relCore, hds] at h
  · rcases hs : spaces1 (l.dropWhile isDig) with _ | rest2
    · simp [relCore, hds, hs] at h
    · by_cases hsw : startsWithL rest2 (toL "day") = true
      · exact mem_of_dropWhile (spaces1_mem hs _ (startsWithL_mem hsw 'a' (by decide)))
      · simp [relCore, hds, hs, hsw] at h

theorem mem_of_drop {n : Nat} {l : List Char} {c : Char} (h : c ∈ l.drop n) : c ∈ l :=
  (List.drop_sublist n l).mem h

theorem relInPrefix_mem_a {l : List Char} {n : Nat} (h : relInPrefix l = some n) :
    'a' ∈ l := by
  by_cases hin : startsWithL l (toL "in") = true
  · rcases hs : spaces1 (l.drop 2) with _ | rest2
    · simp [relInPrefix, hin, hs] at h
    · simp only [relInPrefix, hin, if_true, hs] at h
      exact mem_of_drop (spaces1_mem hs _ (relCore_mem_a h))
  · simp [relInPrefix, hin] at h

theorem relTryAt_mem_a {l : List Char} {n : Nat} (h : relTryAt l = some n) : 'a' ∈ l := by
  unfold relTryAt at h
  rcases hp : relInPrefix l with _ | k <;> rw [hp] at h
  · exact relCore_mem_a h
  · exact relInPrefix_mem_a hp

theorem relativeDayMatch_mem_a {l : List Char} {n : Nat}
    (h : relativeDayMatch l = some n) : 'a' ∈ l := by
  induction l with
  | nil => simp [relativeDayMatch] at h
  | cons e es ih =>
    unfold relativeDayMatch at h
    rcases ht : relTryAt (e :: es) with _ | k <;> rw [ht] at h
    · exact List.mem_cons_of_mem _ (ih h)
    · exact relTryAt_mem_a ht

theorem tryName_mem {l name : List Char} (h : tryName l name = true) :
    ∀ c ∈ name, c ∈ l := by
  simp only [tryName, Bool.and_eq_true] at h
  exact startsWithL_mem h.1

theorem dayTryAt_mem_a {prevW : Bool} {l : List Char} {k : Nat}
    (h : dayTryAt prevW l = some k) : 'a' ∈ l := by
  unfold dayTryAt at h
  split at h
  · cases h
  · split at h
    case isTrue ht => exact tryName_mem ht 'a' (by decide)
    case isFalse _ =>
      split at h
      case isTrue ht => exact tryName_mem ht 'a' (by decide)
      case isFalse _ =>
        split at h
        case isTrue ht => exact tryName_mem ht 'a' (by decide)
        case isFalse _ =>
          split at h
          case isTrue ht => exact tryName_mem ht 'a' (by decide)
          case isFalse _ =>
            split at h
            case isTrue ht => exact tryName_mem ht 'a' (by decide)
            case isFalse _ =>
              split at h
              case isTrue ht => exact tryName_mem ht 'a' (by decide)
              case isFalse _ =>
                split at h
                case isTrue ht => exact tryName_mem ht 'a' (by decide)
                case isFalse _ => cases h

theorem dayTryAt_lt {prevW : Bool} {l : List Char} {k : Nat}
    (h : dayTryAt prevW l = some k) : k < 7 := by
  unfold dayTryAt at h
  split at h
  · cases h
  · split at h
    case isTrue => cases h; omega
    case isFalse _ =>
      split at h
      case isTrue => cases h; omega
      case isFalse _ =>
        split at h
        case isTrue => cases h; omega
        case isFalse _ =>
          split at h
          case isTrue => cases h; omega
          case isFalse _ =>
            split at h
            case isTrue => cases h; omega
            case isFalse _ =>
              split at h
              case isTrue => cases h; omega
              case isFalse _ =>
                split at h
                case isTrue => cases h; omega
                case isFalse _ => cases h

theorem dayScan_mem_a {prevW : Bool} {l : List Char} {k : Nat}
    (h : dayScan prevW l = some k) : 'a' ∈ l := by
  induction l generalizing prevW with
  | nil => simp [dayScan] at h
  | cons e es ih =>
    unfold dayScan at h
    rcases ht : dayTryAt prevW (e :: es) with _ | j <;> rw [ht] at h
    · exact List.mem_cons_of_mem _ (ih h)
    · exact dayTryAt_mem_a ht

theorem dayScan_lt {prevW : Bool} {l : List Char} {k : Nat}
    (h : dayScan prevW l = some k) : k < 7 := by
  induction l generalizing prevW with
  | nil => simp [dayScan] at h
  | cons e es ih =>
    unfold dayScan at h
    rcases ht : dayTryAt prevW (e :: es) with _ | j <;> rw [ht] at h
    · exact ih h
    · have hk : some j = some k := h
      cases hk
      exact dayTryAt_lt ht

theorem dayNameMatch_mem_a {l : List Char} {k : Nat}
    (h : dayNameMatch l = some k) : 'a' ∈ l := dayScan_mem_a h

theorem dayNameMatch_lt {l : List Char} {k : Nat}
    (h : dayNameMatch l = some k) : k < 7 := dayScan_lt h

/-! ## Re-normalizing a canonical value falls through to passthrough -/

theorem lowTrim_mem {v : List Char} {c : Char} (h : c ∈ lowTrim v) :
    ∃ c0 ∈ v, jsToLower c0 = c := by
  unfold lowTrim trimL at h
  rw [List.mem_reverse] at h
  have h2 : c ∈ ((v.map jsToLower).dropWhile isSpaceC).reverse := mem_of_dropWhile h
  rw [List.mem_reverse] at h2
  exact List.mem_map.1 (mem_of_dropWhile h2)

theorem jsToLower_mem_lowDateChars {c : Char} (h : c ∈ dateChars) :
    jsToLower c ∈ lowDateChars := by
  fin_cases h <;> decide

theorem lowTrim_subset_of_dateChars {v : List Char} (hv : ∀ c ∈ v, c ∈ dateChars) :
    ∀ c ∈ lowTrim v, c ∈ lowDateChars := by
  intro c hc
  obtain ⟨c0, hc0, rfl⟩ := lowTrim_mem hc
  exact jsToLower_mem_lowDateChars (hv _ hc0)

theorem lowDateChars_no_a {s : List Char}
    (hs : ∀ c ∈ s, c ∈ lowDateChars) : 'a' ∉ s := by
  intro h
  have := hs _ h
  revert this
  decide

theorem lowDateChars_no_o {s : List Char}
    (hs : ∀ c ∈ s, c ∈ lowDateChars) : 'o' ∉ s := by
  intro h
  have := hs _ h
  revert this
  decide

/-- On a string drawn from the canonical output alphabet every
natural-language pattern misses, so `parseNaturalDateTime` takes the
passthrough branch. -/
theorem passthrough_of_lowDateChars (cur : Int) (v : List Char)
    (hs : ∀ c ∈ lowTrim v, c ∈ lowDateChars) :
    parseNaturalDateTime cur v = ⟨v, !(v.contains 'T')⟩ := by
  have h1 : containsL (lowTrim v) (toL "today") = false := by
    rcases hx : containsL (lowTrim v) (toL "today") with _ | _
    · rfl
    · exact absurd (containsL_mem hx 'a' (by decide)) (lowDateChars_no_a hs)
  have h2 : containsL (lowTrim v) (toL "tomorrow") = false := by
    rcases hx : containsL (lowTrim v) (toL "tomorrow") with _ | _
    · rfl
    · exact absurd (containsL_mem hx 'o' (by decide)) (lowDateChars_no_o hs)
  have h3 : containsL (lowTrim v) (toL "yesterday") = false := by
    rcases hx : containsL (lowTrim v) (toL "yesterday") with _ | _
    · rfl
    · exact absurd (containsL_mem hx 'a' (by decide)) (lowDateChars_no_a hs)
  have h4 : relativeDayMatch (lowTrim v) = none := by
    rcases hx : relativeDayMatch (lowTrim v) with _ | n
    · rfl
    · exact absurd (relativeDayMatch_mem_a hx) (lowDateChars_no_a hs)
  have h5 : dayNameMatch (lowTrim v) = none := by
    rcases hx : dayNameMatch (lowTrim v) with _ | k
    · rfl
    · exact absurd (dayNameMatch_mem_a hx) (lowDateChars_no_a hs)
  simp [parseNaturalDateTime, h1, h2, h3, h4, h5]

theorem renorm_parseTimeForDate (cur : Int) (s : List Char) (d : Int) :
    parseNaturalDateTime cur (parseTimeForDate s d).datetime = parseTimeForDate s d := by
  rw [passthrough_of_lowDateChars cur _
    (lowTrim_subset_of_dateChars (parseTimeForDate_subset s d))]
  rw [← parseTimeForDate_allday s d]

/-! ## Branch equations of `parseNaturalDateTime` -/

theorem parseNaturalDateTime_today (cur : Int) (input : List Char)
    (h1 : containsL (lowTrim input) (toL "today") = true) :
    parseNaturalDateTime cur input = parseTimeForDate (lowTrim input) cur := by
  simp [parseNaturalDateTime, h1]

theorem parseNaturalDateTime_tomorrow (cur : Int) (input : List Char)
    (h1 : containsL (lowTrim input) (toL "today") = false)
    (h2 : containsL (lowTrim input) (toL "tomorrow") = true) :
    parseNaturalDateTime cur input = parseTimeForDate (lowTrim input) (cur + 1) := by
  simp [parseNaturalDateTime, h1, h2]

theorem parseNaturalDateTime_yesterday (cur : Int) (input : List Char)
    (h1 : containsL (lowTrim input) (toL "today") = false)
    (h2 : containsL (lowTrim input) (toL "tomorrow") = false)
    (h3 : containsL (lowTrim input) (toL "yesterday") = true) :
    parseNaturalDateTime cur input = parseTimeForDate (lowTrim input) (cur - 1) := by
  simp [parseNaturalDateTime, h1, h2, h3]

theorem parseNaturalDateTime_relative (cur : Int) (input : List Char) (n : Nat)
    (h1 : containsL (lowTrim input) (toL "today") = false)
    (h2 : containsL (lowTrim input) (toL "tomorrow") = false)
    (h3 : containsL (lowTrim input) (toL "yesterday") = false)
    (h4 : relativeDayMatch (lowTrim input) = some n) :
    parseNaturalDateTime cur input = parseTimeForDate (lowTrim input) (cur + n) := by
  simp [parseNaturalDateTime, h1, h2, h3, h4]

theorem parseNaturalDateTime_weekday (cur : Int) (input : List Char) (k : Nat)
    (h1 : containsL (lowTrim input) (toL "today") = false)
    (h2 : containsL (lowTrim input) (toL "tomorrow") = false)
    (h3 : containsL (lowTrim input) (toL "yesterday") = false)
    (h4 : relativeDayMatch (lowTrim input) = none)
    (h5 : dayNameMatch (lowTrim input) = some k) :
    parseNaturalDateTime cur input =
      parseTimeForDate (lowTrim input) (getNextWeekdayDate cur k) := by
  simp [parseNaturalDateTime, h1, h2, h3, h4, h5]

theorem parseNaturalDateTime_passthrough (cur : Int) (input : List Char)
    (h1 : containsL (lowTrim input) (toL "today") = false)
    (h2 : containsL (lowTrim input) (toL "tomorrow") = false)
    (h3 : containsL (lowTrim input) (toL "yesterday") = false)
    (h4 : relativeDayMatch (lowTrim input) = none)
    (h5 : dayNameMatch (lowTrim input) = none) :
    parseNaturalDateTime cur input = ⟨input, !(input.contains 'T')⟩ := by
  simp [parseNaturalDateTime, h1, h2, h3, h4, h5]

/-- C3: for every input string and timezone, evaluated at a fixed current
instant, re-normalizing the value produced by a first normalization
returns the same canonical result, on recognized and passthrough inputs
alike (`cur` is the current date the fixed instant yields in the requested
timezone). -/
theorem claim_C3_normalize_idempotent (cur : Int) (input : List Char) :
    parseNaturalDateTime cur (parseNaturalDateTime cur input).datetime =
      parseNaturalDateTime cur input := by
  rcases h1 : containsL (lowTrim input) (toL "today") with _ | _
  · rcases h2 : containsL (lowTrim input) (toL "tomorrow") with _ | _
    · rcases h3 : containsL (lowTrim input) (toL "yesterday") with _ | _
      · rcases h4 : relativeDayMatch (lowTrim input) with _ | n
        · rcases h5 : dayNameMatch (lowTrim input) with _ | k
          · rw [parseNaturalDateTime_passthrough cur input h1 h2 h3 h4 h5]
            exact parseNaturalDateTime_passthrough cur input h1 h2 h3 h4 h5
          · rw [parseNaturalDateTime_weekday cur input k h1 h2 h3 h4 h5]
            exact renorm_parseTimeForDate cur _ _
        · rw [parseNaturalDateTime_relative cur input n h1 h2 h3 h4]
          exact renorm_parseTimeForDate cur _ _
      · rw [parseNaturalDateTime_yesterday cur input h1 h2 h3]
        exact renorm_parseTimeForDate cur _ _
    · rw [parseNaturalDateTime_tomorrow cur input h1 h2]
      exact renorm_parseTimeForDate cur _ _
  · rw [parseNaturalDateTime_today cur input h1]
    exact renorm_parseTimeForDate cur _ _

/-! ## A relative-days match always leaves a digit for the time regex -/

theorem timeMatch_isSome_of_digit {l : List Char} (hd : ∃ c ∈ l, isDig c = true) :
    (timeMatch l).isSome = true := by
  induction l with
  | nil =>
    rcases hd with ⟨c, hc, _⟩
    cases hc
  | cons e es ih =>
    unfold timeMatch
    rcases ht : timeMatchAt (e :: es) with _ | v
    · rcases hd with ⟨c, hc, hdig⟩
      rcases List.mem_cons.1 hc with rfl | hc
      · exfalso
        simp [timeMatchAt, hdig] at ht
      · exact ih ⟨c, hc, hdig⟩
    · rfl

theorem relCore_digit {l : List Char} {n : Nat} (h : relCore l = some n) :
    ∃ c ∈ l, isDig c = true := by
  by_cases hds : (l.takeWhile isDig).isEmpty
  · simp [relCore, hds] at h
  · have hne : l.takeWhile isDig ≠ [] := by
      intro hx
      rw [hx] at hds
      exact hds rfl
    obtain ⟨c, hc⟩ := List.exists_mem_of_ne_nil _ hne
    exact ⟨c, (List.takeWhile_sublist isDig).mem hc, List.mem_takeWhile_imp hc⟩

theorem relInPrefix_digit {l : List Char} {n : Nat} (h : relInPrefix l = some n) :
    ∃ c ∈ l, isDig c = true := by
  by_cases hin : startsWithL l (toL "in") = true
  · rcases hs : spaces1 (l.drop 2) with _ | rest2
    · simp [relInPrefix, hin, hs] at h
    · simp only [relInPrefix, hin, if_true, hs] at h
      obtain ⟨c, hc, hdig⟩ := relCore_digit h
      exact ⟨c, mem_of_drop (spaces1_mem hs _ hc), hdig⟩
  · simp [relInPrefix, hin] at h

theorem relTryAt_digit {l : List Char} {n : Nat} (h : relTryAt l = some n) :
    ∃ c ∈ l, isDig c = true := by
  unfold relTryAt at h
  rcases hp : relInPrefix l with _ | k <;> rw [hp] at h
  · exact relCore_digit h
  · exact relInPrefix_digit hp

theorem relativeDayMatch_digit {l : List Char} {n : Nat}
    (h : relativeDayMatch l = some n) : ∃ c ∈ l, isDig c = true := by
  induction l with
  | nil => simp [relativeDayMatch] at h
  | cons e es ih =>
    unfold relativeDayMatch at h
    rcases ht : relTryAt (e :: es) with _ | k <;> rw [ht] at h
    · obtain ⟨c, hc, hdig⟩ := ih h
      exact ⟨c, List.mem_cons_of_mem _ hc, hdig⟩
    · exact relTryAt_digit ht

theorem parseTimeForDate_not_allday {s : List Char} {d : Int}
    (h : (timeMatch s).isSome = true) : (parseTimeForDate s d).isAllDay = false := by
  rcases ht : timeMatch s with _ | ⟨hh, m, mer⟩
  · rw [ht] at h
    cases h
  · simp [parseTimeForDate, ht, buildTime]

/-- C4 counterexample: on current date 2024-01-15 (day 19737, a Monday)
the input `in 3 days` matches the relative pattern with N = 3 and contains
no explicit time of day, yet the parser does not produce the bare all-day
date: the time regex picks up the digit 3 of the day count itself and
produces `2024-01-18T03:00:00` with all-day false. -/
theorem claim_C4_counterexample :
    relativeDayMatch (lowTrim (toL "in 3 days")) = some 3 ∧
    parseNaturalDateTime 19737 (toL "in 3 days") =
      ⟨toL "2024-01-18T03:00:00", false⟩ ∧
    ¬(parseNaturalDateTime 19737 (toL "in 3 days") = ⟨toL "2024-01-18", true⟩) :=
  ⟨by decide, by decide, by decide⟩

/-- C4 amended: for every input reaching the relative-days rule (no
today/tomorrow/yesterday literal, relative pattern matched with day count
N), the anchor is the current date plus N days, but the digits of N (or an
earlier digit run) always satisfy the time regex, so the result is a
datetime with all-day false — the bare-date all-day outcome never occurs
on this branch. -/
theorem claim_C4_amended (cur : Int) (input : List Char) (n : Nat)
    (h1 : containsL (lowTrim input) (toL "today") = false)
    (h2 : containsL (lowTrim input) (toL "tomorrow") = false)
    (h3 : containsL (lowTrim input) (toL "yesterday") = false)
    (h4 : relativeDayMatch (lowTrim input) = some n) :
    parseNaturalDateTime cur input = parseTimeForDate (lowTrim input) (cur + n) ∧
    (parseNaturalDateTime cur input).isAllDay = false := by
  have he := parseNaturalDateTime_relative cur input n h1 h2 h3 h4
  refine ⟨he, ?_⟩
  rw [he]
  exact parseTimeForDate_not_allday (timeMatch_isSome_of_digit (relativeDayMatch_digit h4))

theorem claim_C4_amended_witness :
    parseNaturalDateTime 19737 (toL "in 3 days") =
      parseTimeForDate (lowTrim (toL "in 3 days")) (19737 + (3 : Nat)) ∧
    (parseNaturalDateTime 19737 (toL "in 3 days")).isAllDay = false :=
  claim_C4_amended 19737 (toL "in 3 days") 3 (by decide) (by decide) (by decide)
    (by decide)

/-- Arithmetic contract of `getNextWeekdayDate`: the result lands on the
requested weekday, strictly after the current date, at most a week out,
and exactly a week out when today already is that weekday. -/
theorem getNextWeekdayDate_spec (cur : Int) (k : Nat) (hk : k < 7) :
    jsGetDay (getNextWeekdayDate cur k) = k ∧
    cur < getNextWeekdayDate cur k ∧
    getNextWeekdayDate cur k ≤ cur + 7 ∧
    (jsGetDay cur = k → getNextWeekdayDate cur k = cur + 7) := by
  simp only [getNextWeekdayDate, jsGetDay]
  set c0 := (cur + 4) % 7 with hc0
  set du := ((k : Int) - c0 + 7) % 7 with hdu
  split <;> omega

/-- C5 counterexample: on Monday 2024-01-15 (day 19737) the input
`today friday` contains the weekday name `friday`, whose next occurrence
strictly after the current date is 2024-01-19; but the today rule fires
first and the parser anchors to the current date 2024-01-15 instead. -/
theorem claim_C5_counterexample :
    containsL (lowTrim (toL "today friday")) (toL "friday") = true ∧
    parseNaturalDateTime 19737 (toL "today friday") = ⟨toL "2024-01-15", true⟩ ∧
    fmtDate (getNextWeekdayDate 19737 5) = toL "2024-01-19" ∧
    (parseNaturalDateTime 19737 (toL "today friday")).datetime ≠ toL "2024-01-19" :=
  ⟨by decide, by decide, by decide, by decide⟩

/-- C5 amended: for every input that reaches the weekday rule (it contains
a weekday name and none of the earlier patterns — today, tomorrow,
yesterday, relative days), the parser anchors to the next occurrence of
the first weekday name found, which falls on that weekday strictly after
the current date, at most seven days out, and exactly seven days out when
the current date itself falls on the named weekday — never the current
date. -/
theorem claim_C5_amended (cur : Int) (input : List Char) (k : Nat)
    (h1 : containsL (lowTrim input) (toL "today") = false)
    (h2 : containsL (lowTrim input) (toL "tomorrow") = false)
    (h3 : containsL (lowTrim input) (toL "yesterday") = false)
    (h4 : relativeDayMatch (lowTrim input) = none)
    (h5 : dayNameMatch (lowTrim input) = some k) :
    parseNaturalDateTime cur input =
      parseTimeForDate (lowTrim input) (getNextWeekdayDate cur k) ∧
    jsGetDay (getNextWeekdayDate cur k) = k ∧
    cur < getNextWeekdayDate cur k ∧
    getNextWeekdayDate cur k ≤ cur + 7 ∧
    (jsGetDay cur = k → getNextWeekdayDate cur k = cur + 7) := by
  obtain ⟨ha, hb, hc, hd⟩ := getNextWeekdayDate_spec cur k (dayNameMatch_lt h5)
  exact ⟨parseNaturalDateTime_weekday cur input k h1 h2 h3 h4 h5, ha, hb, hc, hd⟩

theorem claim_C5_amended_witness :
    parseNaturalDateTime 19737 (toL "friday 5pm") =
      parseTimeForDate (lowTrim (toL "friday 5pm")) (getNextWeekdayDate 19737 5) ∧
    jsGetDay (getNextWeekdayDate 19737 5) = 5 ∧
    19737 < getNextWeekdayDate 19737 5 ∧
    getNextWeekdayDate 19737 5 ≤ 19737 + 7 ∧
    (jsGetDay 19737 = 5 → getNextWeekdayDate 19737 5 = 19737 + 7) :=
  claim_C5_amended 19737 (toL "friday 5pm") 5 (by decide) (by decide) (by decide)
    (by decide) (by decide)

/-- C6: in the time-of-day extraction, hour 12 with a pm marker stays 12,
hour 12 with an am marker becomes 0, every other pm hour has 12 added, an
absent minute capture behaves as minute 0, and an hour of 13 or more
without a meridiem marker is kept verbatim. -/
theorem claim_C6_time_extraction :
    adjustHour 12 (some Meridiem.pm) = 12 ∧
    adjustHour 12 (some Meridiem.am) = 0 ∧
    (∀ h : Nat, h ≠ 12 → adjustHour h (some Meridiem.pm) = h + 12) ∧
    (∀ (d : Int) (h : Nat) (mer : Option Meridiem),
      buildTime d h none mer = buildTime d h (some 0) mer) ∧
    (∀ h : Nat, 13 ≤ h → adjustHour h none = h) := by
  refine ⟨rfl, rfl, ?_, ?_, ?_⟩
  · intro h hne
    simp [adjustHour, hne]
  · intro d h mer
    rfl
  · intro h _
    rfl

theorem claim_C6_witness :
    adjustHour 5 (some Meridiem.pm) = 17 ∧ adjustHour 14 none = 14 :=
  ⟨claim_C6_time_extraction.2.2.1 5 (by decide),
   claim_C6_time_extraction.2.2.2.2 14 (by decide)⟩

/-- C7: an input matching none of the recognized natural-language patterns
passes through unchanged (the embedding is a total function, so no
exception can arise), and all-day is reported exactly when the original
string has no literal T separator. -/
theorem claim_C7_passthrough_unchanged (cur : Int) (input : List Char)
    (h1 : containsL (lowTrim input) (toL "today") = false)
    (h2 : containsL (lowTrim input) (toL "tomorrow") = false)
    (h3 : containsL (lowTrim input) (toL "yesterday") = false)
    (h4 : relativeDayMatch (lowTrim input) = none)
    (h5 : dayNameMatch (lowTrim input) = none) :
    parseNaturalDateTime cur input = ⟨input, !(input.contains 'T')⟩ ∧
    ((parseNaturalDateTime cur input).isAllDay = true ↔ 'T' ∉ input) := by
  have he := parseNaturalDateTime_passthrough cur input h1 h2 h3 h4 h5
  refine ⟨he, ?_⟩
  rw [he]
  show (!(input.contains 'T')) = true ↔ 'T' ∉ input
  constructor
  · intro hb hmem
    rw [(contains_iff_memc input 'T').2 hmem] at hb
    cases hb
  · intro hnm
    have hf : input.contains 'T' = false := by
      rcases hx : input.contains 'T' with _ | _
      · rfl
      · exact absurd ((contains_iff_memc _ _).1 hx) hnm
    rw [hf]
    rfl

theorem claim_C7_witness :
    parseNaturalDateTime 0 (toL "hello") =
      ⟨toL "hello", !((toL "hello").contains 'T')⟩ :=
  (claim_C7_passthrough_unchanged 0 (toL "hello") (by decide) (by decide) (by decide)
    (by decide) (by decide)).1

/-! ## Claims about the create-event duplicate gate and its options -/

/-- C1: when the detection report holds a duplicate at or above the
blocking threshold and the caller has not set allowDuplicates to true, the
gate aborts with the duplicate error before the calendar insert (the
boolean false records that the insert is never invoked), and the error
text carries the duplicate title, its similarity as a rounded percentage,
and the explicit override instruction. -/
theorem claim_C1_blocked_duplicate (r : DetectionReport) (allow : Option Bool)
    (hdup : ∃ d ∈ r.duplicates,
      CONFLICT_DETECTION_CONFIG.DUPLICATE_THRESHOLDS.BLOCKING ≤ d.event.similarity)
    (hallow : allow ≠ some true) :
    ∃ d, d ∈ r.duplicates ∧
      CONFLICT_DETECTION_CONFIG.DUPLICATE_THRESHOLDS.BLOCKING ≤ d.event.similarity ∧
      runToolBlockStep r allow = (Except.error (duplicateErrorMessage d), false) ∧
      (∃ u v, duplicateErrorMessage d = u ++ d.event.title ++ v) ∧
      (∃ u v, duplicateErrorMessage d =
        u ++ (intDigits (roundJS (d.event.similarity * 100)) ++ toL "% similar") ++ v) ∧
      (∃ u v, duplicateErrorMessage d =
        u ++ toL "To create anyway, set allowDuplicates to true." ++ v) := by
  have hsome : (findExactDuplicate r).isSome := by
    rw [findExactDuplicate, List.find?_isSome]
    obtain ⟨d, hd, hle⟩ := hdup
    exact ⟨d, hd, decide_eq_true hle⟩
  rcases hfind : findExactDuplicate r with _ | d
  · rw [hfind] at hsome
    cases hsome
  · have hfind2 : List.find? (fun d => decide
        (CONFLICT_DETECTION_CONFIG.DUPLICATE_THRESHOLDS.BLOCKING ≤ d.event.similarity))
        r.duplicates = some d := hfind
    have hd : d ∈ r.duplicates := List.mem_of_find?_eq_some hfind2
    have hp := List.find?_some hfind2
    have hle : CONFLICT_DETECTION_CONFIG.DUPLICATE_THRESHOLDS.BLOCKING ≤
        d.event.similarity := of_decide_eq_true hp
    refine ⟨d, hd, hle, ?_, ?_, ?_, ?_⟩
    · simp [runToolBlockStep, hfind, hallow]
    · exact ⟨toL "Duplicate event detected (" ++
          intDigits (roundJS (d.event.similarity * 100)) ++ toL "% similar" ++
          toL "). " ++ toL "Event \"",
        toL "\" already exists. " ++ toL "To create anyway, set allowDuplicates to true.",
        by simp [duplicateErrorMessage, List.append_assoc]⟩
    · exact ⟨toL "Duplicate event detected (",
        toL "). " ++ toL "Event \"" ++ d.event.title ++ toL "\" already exists. " ++
          toL "To create anyway, set allowDuplicates to true.",
        by simp [duplicateErrorMessage, List.append_assoc]⟩
    · exact ⟨toL "Duplicate event detected (" ++
          intDigits (roundJS (d.event.similarity * 100)) ++ toL "% similar" ++
          toL "). " ++ toL "Event \"" ++ d.event.title ++ toL "\" already exists. ",
        [],
        by simp [duplicateErrorMessage, List.append_assoc]⟩

/-- Sample duplicate entry used to witness the blocking behaviour. -/
def blockedSampleDup : DupMatch :=
  { event := { id := some (toL "evt1"), title := toL "Team Sync",
               start := some (toL "2024-01-15T10:00:00"),
               endTime := some (toL "2024-01-15T11:00:00"),
               url := none, similarity := 96/100 }
    calendarId := some (toL "primary")
    suggestion := toL "An event with a 96 percent similar title already exists" }

/-- Sample report containing that duplicate and no conflicts. -/
def blockedSampleReport : DetectionReport :=
  { conflicts := [], duplicates := [blockedSampleDup] }

theorem claim_C1_witness :
    ∃ d, d ∈ blockedSampleReport.duplicates ∧
      CONFLICT_DETECTION_CONFIG.DUPLICATE_THRESHOLDS.BLOCKING ≤ d.event.similarity ∧
      runToolBlockStep blockedSampleReport none =
        (Except.error (duplicateErrorMessage d), false) ∧
      (∃ u v, duplicateErrorMessage d = u ++ d.event.title ++ v) ∧
      (∃ u v, duplicateErrorMessage d =
        u ++ (intDigits (roundJS (d.event.similarity * 100)) ++ toL "% similar") ++ v) ∧
      (∃ u v, duplicateErrorMessage d =
        u ++ toL "To create anyway, set allowDuplicates to true." ++ v) :=
  claim_C1_blocked_duplicate blockedSampleReport none
    ⟨blockedSampleDup, List.mem_singleton.mpr rfl,
      by norm_num [blockedSampleDup, CONFLICT_DETECTION_CONFIG]⟩ (by decide)

/-- C2: the gate refuses creation exactly when some reported duplicate
reaches the blocking threshold and allowDuplicates is not true, and the
conflict list of the report has no influence at all on the outcome. -/
theorem claim_C2_refusal_iff (cs cs2 : List ConflictMatch) (ds : List DupMatch)
    (allow : Option Bool) :
    ((∃ msg, (runToolBlockStep ⟨cs, ds⟩ allow).1 = Except.error msg) ↔
      ((∃ d ∈ ds,
          CONFLICT_DETECTION_CONFIG.DUPLICATE_THRESHOLDS.BLOCKING ≤ d.event.similarity) ∧
        allow ≠ some true)) ∧
    runToolBlockStep ⟨cs, ds⟩ allow = runToolBlockStep ⟨cs2, ds⟩ allow := by
  constructor
  · constructor
    · rintro ⟨msg, hmsg⟩
      rcases hfind : findExactDuplicate ⟨cs, ds⟩ with _ | d
      · simp [runToolBlockStep, hfind] at hmsg
      · have hfind2 : List.find? (fun d => decide
            (CONFLICT_DETECTION_CONFIG.DUPLICATE_THRESHOLDS.BLOCKING ≤ d.event.similarity))
            ds = some d := hfind
        have hp := List.find?_some hfind2
        by_cases hallow : allow ≠ some true
        · exact ⟨⟨d, List.mem_of_find?_eq_some hfind2, of_decide_eq_true hp⟩, hallow⟩
        · simp [runToolBlockStep, hfind, hallow] at hmsg
    · rintro ⟨⟨d, hd, hle⟩, hallow⟩
      have hsome : (findExactDuplicate ⟨cs, ds⟩).isSome := by
        rw [findExactDuplicate, List.find?_isSome]
        exact ⟨d, hd, decide_eq_true hle⟩
      rcases hfind : findExactDuplicate ⟨cs, ds⟩ with _ | d2
      · rw [hfind] at hsome
        cases hsome
      · exact ⟨duplicateErrorMessage d2, by simp [runToolBlockStep, hfind, hallow]⟩
  · rfl

/-- C8: with no calendarsToCheck supplied the options target exactly the
candidate calendar, with no threshold supplied the detection threshold is
the 0.7 default, and both checks are enabled. -/
theorem claim_C8_option_defaults (cid : List Char) (allow : Option Bool) :
    checkConflictsOptions ⟨cid, none, none, allow⟩ =
      { checkDuplicates := true
        checkConflicts := true
        calendarsToCheck := [cid]
        duplicateSimilarityThreshold := 7/10 } := rfl

/-- C9: the schema accepts an explicit threshold of 0 (its declared range
is the closed unit interval), yet the falsy-zero fallback of the handler
replaces it by the 0.7 default, so a zero threshold is never used. -/
theorem claim_C9_zero_threshold_replaced (cid : List Char)
    (csToCheck : Option (List (List Char))) (allow : Option Bool) :
    thresholdSchemaAccepts 0 ∧
    (checkConflictsOptions ⟨cid, csToCheck, some 0, allow⟩).duplicateSimilarityThreshold =
      CONFLICT_DETECTION_CONFIG.DEFAULT_DUPLICATE_THRESHOLD ∧
    (checkConflictsOptions ⟨cid, csToCheck, some 0, allow⟩).duplicateSimilarityThreshold ≠
      0 := by
  refine ⟨⟨le_refl 0, by norm_num⟩, rfl, ?_⟩
  show CONFLICT_DETECTION_CONFIG.DEFAULT_DUPLICATE_THRESHOLD ≠ 0
  norm_num [CONFLICT_DETECTION_CONFIG]

/-! ## Claim about the dispatcher frame -/

theorem find?_filter_keys (l : List (List Char × JsVal)) (k : List Char)
    (hk : k ∉ tokenKeys) :
    (l.filter (fun kv => !(tokenKeys.contains kv.1))).find? (fun kv => kv.1 == k) =
      l.find? (fun kv => kv.1 == k) := by
  induction l with
  | nil => rfl
  | cons kv rest ih =>
    by_cases hkv : kv.1 ∈ tokenKeys
    · have hneg : ¬(fun kv2 : List Char × JsVal => !(tokenKeys.contains kv2.1)) kv = true := by
        show ¬(!(tokenKeys.contains kv.1)) = true
        rw [show tokenKeys.contains kv.1 = true from List.elem_iff.mpr hkv]
        decide
      have hne : (kv.1 == k) = false := by
        rcases hx : kv.1 == k with _ | _
        · rfl
        · exact absurd (beq_iff_eq.1 hx ▸ hkv) hk
      have hne2 : ¬(fun kv2 : List Char × JsVal => kv2.1 == k) kv = true := by
        show ¬(kv.1 == k) = true
        rw [hne]
        decide
      rw [@List.filter_cons_of_neg (List Char × JsVal)
            (fun kv2 => !(tokenKeys.contains kv2.1)) kv rest hneg,
          @List.find?_cons_of_neg (List Char × JsVal)
            (fun kv2 => kv2.1 == k) kv rest hne2, ih]
    · have hct : tokenKeys.contains kv.1 = false := by
        rcases hx : tokenKeys.contains kv.1 with _ | _
        · rfl
        · exact absurd (List.elem_iff.mp hx) hkv
      have hpos : (fun kv2 : List Char × JsVal => !(tokenKeys.contains kv2.1)) kv = true := by
        show (!(tokenKeys.contains kv.1)) = true
        rw [hct]
        rfl
      rw [@List.filter_cons_of_pos (List Char × JsVal)
            (fun kv2 => !(tokenKeys.contains kv2.1)) kv rest hpos]
      rcases hx : kv.1 == k with _ | _
      · have hx2 : ¬(fun kv2 : List Char × JsVal => kv2.1 == k) kv = true := by
          show ¬(kv.1 == k) = true
          rw [hx]
          decide
        rw [@List.find?_cons_of_neg (List Char × JsVal) (fun kv2 => kv2.1 == k) kv
              (rest.filter (fun kv2 => !(tokenKeys.contains kv2.1))) hx2,
            @List.find?_cons_of_neg (List Char × JsVal) (fun kv2 => kv2.1 == k) kv
              rest hx2, ih]
      · have hx2 : (fun kv2 : List Char × JsVal => kv2.1 == k) kv = true := hx
        rw [@List.find?_cons_of_pos (List Char × JsVal) (fun kv2 => kv2.1 == k) kv
              (rest.filter (fun kv2 => !(tokenKeys.contains kv2.1))) hx2,
            @List.find?_cons_of_pos (List Char × JsVal) (fun kv2 => kv2.1 == k) kv
              rest hx2]

/-- C10: whenever the dispatcher reaches the handler, the handler receives
the argument object with exactly the access_token, refresh_token and
expiry_date fields removed — every other field is passed through unchanged
(the tool-argument list is precisely the filtered original, membership in
it excludes the credential keys, and lookups of non-credential keys are
preserved) — while the credential values only enter the constructed OAuth
client.  Quantifying over the JSON-parse, number-to-string and
to-number builtins makes the statement independent of their behaviour. -/
theorem claim_C10_credentials_stripped
    (jsonParse : List Char → Option JsVal) (jsToString : JsVal → List Char)
    (jsNumber : JsVal → ℚ) (args : List (List Char × JsVal))
    (inv : HandlerInvocation)
    (hok : executeWithHandler jsonParse jsToString jsNumber args = Except.ok inv) :
    inv.toolArgs = args.filter (fun kv => !(tokenKeys.contains kv.1)) ∧
    (∀ kv ∈ inv.toolArgs, kv.1 ∉ tokenKeys) ∧
    (∀ k, k ∉ tokenKeys → lookupField inv.toolArgs k = lookupField args k) := by
  have htool : inv.toolArgs = args.filter (fun kv => !(tokenKeys.contains kv.1)) := by
    simp only [executeWithHandler] at hok
    split at hok
    · cases hok
    · cases hok
      rfl
  refine ⟨htool, ?_, ?_⟩
  · intro kv hkv hmem
    rw [htool] at hkv
    have hp := (List.mem_filter.1 hkv).2
    rw [show tokenKeys.contains kv.1 = true from List.elem_iff.mpr hmem] at hp
    cases hp
  · intro k hk
    rw [htool, lookupField, lookupField, find?_filter_keys _ _ hk]

/-- Concrete argument object for the dispatcher witness. -/
def c10Args : List (List Char × JsVal) :=
  [(toL "access_token", JsVal.str (toL "tok")),
   (toL "refresh_token", JsVal.str (toL "ref")),
   (toL "expiry_date", JsVal.num 1763010691),
   (toL "calendarId", JsVal.str (toL "primary"))]

/-- The invocation the dispatcher produces on `c10Args`. -/
def c10Inv : HandlerInvocation :=
  { toolArgs := [(toL "calendarId", JsVal.str (toL "primary"))]
    client := { access_token := JsVal.str (toL "tok")
                refresh_token := JsVal.str (toL "ref")
                expiry_date := some 1763010691 } }

theorem claim_C10_witness :
    lookupField c10Inv.toolArgs (toL "calendarId") =
      lookupField c10Args (toL "calendarId") :=
  (claim_C10_credentials_stripped (fun _ => none) (fun _ => [])
      (fun v => match v with | .num q => q | _ => 0) c10Args c10Inv rfl).2.2
    (toL "calendarId") (by decide)
